import Mathlib

/-!
# Bus stops: arrival window, buses cache, arrivals pagination, route ordering

A shallow embedding of the logic of `FINAL/server.js` (the `/arrivals` handler and the
buses cache) and of `FINAL/scripts.js` (`renderNextArrivalsPage`, `parseRouteKey`,
`compareBuses`), followed by theorems about it.

JavaScript numbers are embedded as `JSNum`: the integers, `NaN` and the two infinities.
Fractional values are not represented. JavaScript strings are embedded as Lean strings.
Three builtins are fields of a `Host`: `Number` applied to a string, whose numeric literal
grammar is not embedded in full, and `toUpperCase` and `localeCompare`, whose result depends
on the Unicode and locale data of the engine. General theorems hold for every host;
`refHost` is the instance on which concrete inputs are evaluated.
-/

namespace BusStops

/-! ## JavaScript numbers -/

/-- A JavaScript number restricted to the values this program computes with: `NaN`, an
integer, `+Infinity` or `-Infinity`. -/
inductive JSNum where
  | nan
  | fin (n : Int)
  | posInf
  | negInf
  deriving DecidableEq, Repr

namespace JSNum

/-- The sign of a number as an integer: `-1`, `0` or `1`; `0` for `NaN`. -/
def sgn : JSNum → Int
  | nan => 0
  | fin n => Int.sign n
  | posInf => 1
  | negInf => -1

/-- Unary minus. -/
def neg : JSNum → JSNum
  | nan => nan
  | fin n => fin (-n)
  | posInf => negInf
  | negInf => posInf

/-- The `+` operator on numbers. -/
def add : JSNum → JSNum → JSNum
  | nan, _ => nan
  | _, nan => nan
  | fin a, fin b => fin (a + b)
  | fin _, posInf => posInf
  | fin _, negInf => negInf
  | posInf, negInf => nan
  | posInf, _ => posInf
  | negInf, posInf => nan
  | negInf, _ => negInf

/-- The `-` operator on numbers. -/
def sub (a b : JSNum) : JSNum := add a (neg b)

/-- The `*` operator on numbers. -/
def mul : JSNum → JSNum → JSNum
  | nan, _ => nan
  | _, nan => nan
  | fin a, fin b => fin (a * b)
  | fin a, posInf => if a = 0 then nan else if 0 < a then posInf else negInf
  | fin a, negInf => if a = 0 then nan else if 0 < a then negInf else posInf
  | posInf, fin b => if b = 0 then nan else if 0 < b then posInf else negInf
  | negInf, fin b => if b = 0 then nan else if 0 < b then negInf else posInf
  | posInf, posInf => posInf
  | posInf, negInf => negInf
  | negInf, posInf => negInf
  | negInf, negInf => posInf

/-- The `<` operator on numbers; `false` as soon as one side is `NaN`. -/
def lt : JSNum → JSNum → Bool
  | nan, _ => false
  | _, nan => false
  | fin a, fin b => decide (a < b)
  | fin _, posInf => true
  | fin _, negInf => false
  | posInf, _ => false
  | negInf, negInf => false
  | negInf, _ => true

/-- The `>` operator on numbers. -/
def gt (a b : JSNum) : Bool := lt b a

/-- The `>=` operator on numbers; `false` as soon as one side is `NaN`. -/
def ge : JSNum → JSNum → Bool
  | nan, _ => false
  | _, nan => false
  | fin a, fin b => decide (b ≤ a)
  | fin _, posInf => false
  | fin _, negInf => true
  | posInf, _ => true
  | negInf, negInf => true
  | negInf, _ => false

/-- The `%` operator on numbers: the remainder has the sign of the dividend. -/
def mod : JSNum → JSNum → JSNum
  | nan, _ => nan
  | _, nan => nan
  | posInf, _ => nan
  | negInf, _ => nan
  | fin a, posInf => fin a
  | fin a, negInf => fin a
  | fin a, fin b => if b = 0 then nan else fin (Int.sign a * ((Int.natAbs a % Int.natAbs b : Nat) : Int))

/-- The composite `Math.floor(a / b)`. -/
def floorDiv : JSNum → JSNum → JSNum
  | nan, _ => nan
  | _, nan => nan
  | fin a, fin b =>
    if b = 0 then (if a = 0 then nan else if 0 < a then posInf else negInf) else fin (Int.fdiv a b)
  | fin _, posInf => fin 0
  | fin _, negInf => fin 0
  | posInf, fin b => if 0 ≤ b then posInf else negInf
  | negInf, fin b => if 0 ≤ b then negInf else posInf
  | posInf, _ => nan
  | negInf, _ => nan

/-- `Number.isNaN`. -/
def isNaN : JSNum → Bool
  | nan => true
  | _ => false

/-- `String(x)` for a number `x` (decimal notation, as for integers below `10^21`). -/
def toStr : JSNum → String
  | nan => "NaN"
  | fin n => toString n
  | posInf => "Infinity"
  | negInf => "-Infinity"

end JSNum

/-- The value `ToNumber` gives to a destructured array slot: `undefined` (an absent slot)
becomes `NaN`. -/
def slotToNumber : Option JSNum → JSNum
  | none => JSNum.nan
  | some x => x

/-- `Number.isNaN` on a destructured array slot: `undefined` is not the number `NaN`. -/
def slotIsNaN : Option JSNum → Bool
  | none => false
  | some x => x.isNaN

/-! ## Strings -/

/-- The pieces of a character sequence between the occurrences of `sep`. -/
def splitChars (sep : Char) : List Char → List (List Char)
  | [] => [[]]
  | c :: cs =>
    if c = sep then [] :: splitChars sep cs
    else
      match splitChars sep cs with
      | [] => [[c]]
      | p :: ps => (c :: p) :: ps

/-- `t.split(sep)` for a one-character separator. -/
def jsSplit (t : String) (sep : Char) : List String :=
  (splitChars sep t.toList).map String.mk

/-- `s.padStart(2, "0")`. -/
def padStart2 (s : String) : String :=
  String.mk (List.replicate (2 - s.length) '0') ++ s

/-- White space and line terminators, the characters `trim` removes. -/
def isJSSpace (c : Char) : Bool :=
  c.toNat = 0x09 || c.toNat = 0x0A || c.toNat = 0x0B || c.toNat = 0x0C || c.toNat = 0x0D ||
  c.toNat = 0x20 || c.toNat = 0xA0 || c.toNat = 0x1680 ||
  (0x2000 ≤ c.toNat && c.toNat ≤ 0x200A) ||
  c.toNat = 0x2028 || c.toNat = 0x2029 || c.toNat = 0x202F || c.toNat = 0x205F ||
  c.toNat = 0x3000 || c.toNat = 0xFEFF

/-- Line terminators, the characters `.` does not match in a regular expression. -/
def isLineTerminator (c : Char) : Bool :=
  c.toNat = 0x0A || c.toNat = 0x0D || c.toNat = 0x2028 || c.toNat = 0x2029

/-- `s.trim()` on a character sequence. -/
def trimChars (cs : List Char) : List Char :=
  ((cs.dropWhile isJSSpace).reverse.dropWhile isJSSpace).reverse

/-- `s.trim()`. -/
def jsTrim (s : String) : String := String.mk (trimChars s.toList)

/-! ## Host builtins -/

/-- The builtins whose result depends on the engine: `Number(s)` for a string `s` (with its
value restricted to `JSNum`), `s.toUpperCase()` and `a.localeCompare(b)`. -/
structure Host where
  toNumber : String → JSNum
  toUpperCase : String → String
  localeCompare : String → String → Int

/-- The value of a sequence of decimal digits, most significant first. -/
def digitsValue (cs : List Char) : Nat :=
  cs.foldl (fun acc c => 10 * acc + (c.toNat - 48)) 0

/-- `Number(s)` on the strings the examples use: after trimming, the empty string is `0`, an
optionally signed run of decimal digits is its value, an optionally signed `Infinity` is
that infinity, and anything else is `NaN`. -/
def decimalNumber (s : String) : JSNum :=
  let body (cs : List Char) : JSNum :=
    if cs = "Infinity".toList then JSNum.posInf
    else if cs ≠ [] ∧ cs.all Char.isDigit then JSNum.fin (digitsValue cs)
    else JSNum.nan
  match trimChars s.toList with
  | [] => JSNum.fin 0
  | '+' :: cs => body cs
  | '-' :: cs => (body cs).neg
  | cs => body cs

/-- Canonical decomposition, for the one composed letter the examples use:
U+00C4 (A with diaeresis) is U+0041 followed by the combining diaeresis U+0308. -/
def canonicalDecomposition (c : Char) : List Char :=
  if c.toNat = 0xC4 then ['A', Char.ofNat 0x308] else [c]

/-- Lexicographic comparison of two character sequences by code point. -/
def compareChars : List Char → List Char → Int
  | [], [] => 0
  | [], _ :: _ => -1
  | _ :: _, [] => 1
  | a :: as, b :: bs =>
    if a.toNat < b.toNat then -1 else if b.toNat < a.toNat then 1 else compareChars as bs

/-- A collation that compares canonically decomposed strings by code point. ECMA-262
requires `localeCompare` to return `0` on canonically equivalent strings. -/
def canonicalCompare (a b : String) : Int :=
  compareChars (a.toList.flatMap canonicalDecomposition) (b.toList.flatMap canonicalDecomposition)

/-- The host on which concrete inputs are evaluated. -/
def refHost : Host where
  toNumber := decimalNumber
  toUpperCase := fun s => String.mk (s.toList.map Char.toUpper)
  localeCompare := canonicalCompare

/-! ## `server.js`: the `/arrivals` handler -/

/-- The object `{ adjusted, timeStr, isTomorrow }` built for a retained departure. -/
structure Upcoming where
  adjusted : JSNum
  timeStr : String
  isTomorrow : Bool
  deriving DecidableEq, Repr

/-- The destructuring `const [hh, mm] = t.split(":").map(Number)`; `none` is `undefined`. -/
def parseHHMM (H : Host) (t : String) : Option JSNum × Option JSNum :=
  let parts := (jsSplit t ':').map H.toNumber
  (parts.head?, parts.tail.head?)

/-- The callback of the second `.map` of the handler: `none` is the `null` it returns for a
row it rejects. -/
def toUpcoming (H : Host) (nowMin : Nat) (t : String) : Option Upcoming :=
  let (hh, mm) := parseHHMM H t
  if slotIsNaN hh || slotIsNaN mm then none
  else
    let raw := ((slotToNumber hh).mul (.fin 60)).add (slotToNumber mm)
    let adjusted := if raw.lt (.fin 1440) && raw.lt (.fin nowMin) then raw.add (.fin 1440) else raw
    let diff := adjusted.sub (.fin nowMin)
    if diff.lt (.fin 0) || diff.gt (.fin 1440) then none
    else
      let isTomorrow := adjusted.ge (.fin 1440)
      let hhOut := (adjusted.mod (.fin 1440)).floorDiv (.fin 60)
      let mmOut := (adjusted.mod (.fin 1440)).mod (.fin 60)
      let timeStr := padStart2 hhOut.toStr ++ ":" ++ padStart2 mmOut.toStr
      some { adjusted := adjusted, timeStr := timeStr, isTomorrow := isTomorrow }

/-- The comparator `(a, b) => a.adjusted - b.adjusted` does not put `a` after `b`: its
value is not positive (a `NaN` value counts as `0`). -/
def notAfter (a b : Upcoming) : Prop := (a.adjusted.sub b.adjusted).gt (.fin 0) = false

instance : DecidableRel notAfter := fun a b =>
  inferInstanceAs (Decidable ((a.adjusted.sub b.adjusted).gt (.fin 0) = false))

/-- The final `.map`: the time, followed by `" (tomorrow)"` for a departure of the next
day. -/
def render (x : Upcoming) : String :=
  if x.isTomorrow then x.timeStr ++ " (tomorrow)" else x.timeStr

/-- The retained departures after `.filter(Boolean)`, the stable `.sort` and
`.slice(0, 200)`. -/
def upcomingRecords (H : Host) (nowMin : Nat) (rows : List String) : List Upcoming :=
  ((rows.filterMap (toUpcoming H nowMin)).insertionSort notAfter).take 200

/-- The array `upcoming` the `/arrivals` handler sends, for the departure times `rows`
(each already a string) and the current minute of the day `nowMin`. -/
def arrivals (H : Host) (nowMin : Nat) (rows : List String) : List String :=
  (upcomingRecords H nowMin rows).map render

/-! ## `server.js`: the buses cache -/

/-- A value of the map `busesCache`: `{ expiresAt, data }`. -/
structure CacheEntry (V : Type) where
  expiresAt : Int
  data : V

/-- The map `busesCache`, keyed by `String(stopId)`; `none` is an absent key. -/
abbrev BusesCache (V : Type) := String → Option (CacheEntry V)

/-- The constant `BUSES_TTL_MS`. -/
def BUSES_TTL_MS : Int := 5 * 60 * 1000

/-- `busesCache.delete(key)`. -/
def mapDelete {V : Type} (cache : BusesCache V) (key : String) : BusesCache V :=
  fun k => if k = key then none else cache k

/-- `busesCache.set(key, entry)`. -/
def mapSet {V : Type} (cache : BusesCache V) (key : String) (entry : CacheEntry V) :
    BusesCache V :=
  fun k => if k = key then some entry else cache k

/-- `getCachedBuses(stopId)` when `Date.now()` is `dateNow`: the returned value (`none` is
`null`) and the map afterwards. -/
def getCachedBuses {V : Type} (cache : BusesCache V) (dateNow : Int) (stopId : String) :
    Option V × BusesCache V :=
  match cache stopId with
  | none => (none, cache)
  | some hit =>
    if dateNow > hit.expiresAt then (none, mapDelete cache stopId)
    else (some hit.data, cache)

/-- `setCachedBuses(stopId, data)` when `Date.now()` is `dateNow`: the map afterwards. -/
def setCachedBuses {V : Type} (cache : BusesCache V) (dateNow : Int) (stopId : String)
    (data : V) : BusesCache V :=
  mapSet cache stopId { expiresAt := dateNow + BUSES_TTL_MS, data := data }

/-- A call of one of the two cache functions, with the value of `Date.now()` during it. -/
inductive CacheCall (V : Type) where
  | get (stopId : String) (dateNow : Int)
  | set (stopId : String) (data : V) (dateNow : Int)

/-- The value of `Date.now()` during a call. -/
def CacheCall.time {V : Type} : CacheCall V → Int
  | .get _ t => t
  | .set _ _ t => t

/-- A call stores a value for `key`. -/
def CacheCall.setsKey {V : Type} (key : String) : CacheCall V → Prop
  | .get _ _ => False
  | .set k _ _ => k = key

/-- The map after a call. -/
def CacheCall.run {V : Type} (cache : BusesCache V) : CacheCall V → BusesCache V
  | .get k t => (getCachedBuses cache t k).2
  | .set k v t => setCachedBuses cache t k v

/-- The map after a sequence of calls. -/
def runCalls {V : Type} (cache : BusesCache V) (calls : List (CacheCall V)) : BusesCache V :=
  calls.foldl CacheCall.run cache

/-! ## `scripts.js`: arrivals pagination -/

/-- The pagination state of the page: the list received from the server, the number of
its items already rendered, the text of the `li` children of the arrivals list, and whether
the show-more button is displayed (`"block"`) or hidden (`"none"`). -/
structure ArrivalsView where
  arrivalsCache : List String
  arrivalsShownCount : Nat
  arrivalsList : List String
  showMoreDisplayed : Bool
  deriving DecidableEq, Repr

/-- The constant `ARRIVALS_PAGE`. -/
def ARRIVALS_PAGE : Nat := 5

/-- `xs.slice(start, stop)` for indices that are natural numbers. -/
def jsSlice {α : Type} (xs : List α) (start stop : Nat) : List α :=
  (xs.take stop).drop start

/-- `renderNextArrivalsPage()`: the state afterwards. -/
def renderNextArrivalsPage (v : ArrivalsView) : ArrivalsView :=
  let next := jsSlice v.arrivalsCache v.arrivalsShownCount (v.arrivalsShownCount + ARRIVALS_PAGE)
  let shown := v.arrivalsShownCount + next.length
  { arrivalsCache := v.arrivalsCache
    arrivalsShownCount := shown
    arrivalsList := v.arrivalsList ++ next
    showMoreDisplayed := decide (shown < v.arrivalsCache.length) }

/-! ## `scripts.js`: bus sort -/

/-- A row of the `/buses` answer; `none` is `null` or `undefined`. -/
structure Bus where
  route_short_name : Option String
  trip_headsign : Option String
  deriving DecidableEq, Repr

/-- The object `{ num, suf }` that `parseRouteKey` returns. -/
structure RouteKey where
  num : JSNum
  suf : String
  deriving DecidableEq, Repr

/-- The groups `m[1]` and `m[2]` of `s.match(/^(\d+)(.*)$/)`, or `none` when there is no
match: the first group is the longest leading run of ASCII digits, which must not be
empty, and the second group is the rest of `s`, which must not contain a line terminator
since `.` does not match one and `$` only matches at the end of `s`. -/
def matchRoute (s : String) : Option (String × String) :=
  let digits := s.toList.takeWhile Char.isDigit
  let rest := s.toList.dropWhile Char.isDigit
  if digits = [] ∨ rest.any isLineTerminator = true then none
  else some (String.mk digits, String.mk rest)

/-- `parseRouteKey(route)`. The value of `parseInt(m[1], 10)` is taken exactly, as it is
for every run of digits below `2^53`. -/
def parseRouteKey (H : Host) (route : Option String) : RouteKey :=
  let s := jsTrim (route.getD "")
  match matchRoute s with
  | none => { num := .posInf, suf := H.toUpperCase s }
  | some (m1, m2) =>
    { num := .fin (digitsValue m1.toList), suf := H.toUpperCase (jsTrim m2) }

/-- `String(x || "")` for a string or absent `x`. -/
def orEmpty (x : Option String) : String := x.getD ""

/-- The operator `!==` on numbers. -/
def JSNum.strictNe (a b : JSNum) : Bool := a.isNaN || b.isNaN || decide (a ≠ b)

/-- `compareBuses(a, b)`. -/
def compareBuses (H : Host) (a b : Bus) : JSNum :=
  let ka := parseRouteKey H a.route_short_name
  let kb := parseRouteKey H b.route_short_name
  if ka.num.strictNe kb.num then ka.num.sub kb.num
  else if ka.suf ≠ kb.suf then .fin (H.localeCompare ka.suf kb.suf)
  else .fin (H.localeCompare (orEmpty a.trip_headsign) (orEmpty b.trip_headsign))

/-! ## `server.js`: the `/buses` query -/

/-- MySQL `TRIM(s)`: the leading and trailing spaces are removed. -/
def sqlTrim (s : String) : String :=
  String.mk (((s.toList.dropWhile (· = ' ')).reverse.dropWhile (· = ' ')).reverse)

/-- The column `COALESCE(NULLIF(TRIM(t.trip_headsign), ''), 'none') AS trip_headsign` for
a trip whose headsign is `trip_headsign`; `none` is `NULL`. `TRIM(NULL)` is `NULL`, and
`NULLIF(x, '')` is `NULL` when `x` is the empty string. -/
def busesHeadsign (trip_headsign : Option String) : String :=
  match trip_headsign with
  | none => "none"
  | some s => if sqlTrim s = "" then "none" else sqlTrim s

/-- The row of the `/buses` answer for a route name and a trip headsign of the database:
the object that `data.sort(compareBuses)` receives. -/
def busesRow (route_short_name trip_headsign : Option String) : Bus :=
  { route_short_name := route_short_name
    trip_headsign := some (busesHeadsign trip_headsign) }

/-! ## The vocabulary of the specification -/

/-- The schedule time (minutes since midnight of the service day) a row stands for: the
value of `raw = hh * 60 + mm` when both components are integers. -/
def rowMinutes (H : Host) (t : String) : Option Int :=
  match parseHHMM H t with
  | (some (.fin h), some (.fin m)) => some (h * 60 + m)
  | _ => none

/-- The `adjusted` value of a schedule time: a time of today that has already passed is
moved to tomorrow. -/
def adjustedMinutes (nowMin : Nat) (timeOfDay : Int) : Int :=
  if timeOfDay < 1440 ∧ timeOfDay < nowMin then timeOfDay + 1440 else timeOfDay

/-- The `diff` value of a schedule time: minutes from now. -/
def diffMinutes (nowMin : Nat) (timeOfDay : Int) : Int :=
  adjustedMinutes nowMin timeOfDay - nowMin

/-- A row stands for a schedule time whose `diff` lies in `[0, 1440]`. -/
def rowInWindow (H : Host) (nowMin : Nat) (t : String) : Bool :=
  match rowMinutes H t with
  | some n => decide (0 ≤ diffMinutes nowMin n ∧ diffMinutes nowMin n ≤ 1440)
  | none => false

/-- A row stands for a schedule time whose `diff` is negative or above `1440`. -/
def rowOutOfWindow (H : Host) (nowMin : Nat) (t : String) : Bool :=
  match rowMinutes H t with
  | some n => decide (diffMinutes nowMin n < 0 ∨ 1440 < diffMinutes nowMin n)
  | none => false

/-- The `<=` operator on numbers; `false` as soon as one side is `NaN`. -/
def JSNum.le (a b : JSNum) : Bool := JSNum.ge b a

/-- The `adjusted` value of `a` is at most that of `b`. -/
def adjustedLE (a b : Upcoming) : Prop := a.adjusted.le b.adjusted = true

/-- The number of rows that stand for a schedule time whose `diff` lies in `[0, 1440]`. -/
def countInWindow (H : Host) (nowMin : Nat) (rows : List String) : Nat :=
  (rows.filter (rowInWindow H nowMin)).length

/-- The requirement ECMA-262 puts on a comparator: it is `0` on equal arguments, swapping
the arguments swaps the sign, and "negative" is transitive. -/
structure ConsistentCompare (lc : String → String → Int) : Prop where
  refl : ∀ x, lc x x = 0
  antisymm : ∀ x y, Int.sign (lc y x) = -Int.sign (lc x y)
  trans : ∀ x y z, lc x y < 0 → lc y z < 0 → lc x z < 0

/-- The two decimal digits of a number below `100`. -/
def twoDigits (n : Nat) : String :=
  String.mk [Char.ofNat (48 + n / 10), Char.ofNat (48 + n % 10)]

/-- The zero-padded `HH:MM` of a minute of the day. -/
def hhmm (minuteOfDay : Nat) : String :=
  twoDigits (minuteOfDay / 60) ++ ":" ++ twoDigits (minuteOfDay % 60)


/-! ## Lemmas on the `/arrivals` pipeline -/

theorem padStart2_toString_eq_twoDigits : ∀ n < 60, padStart2 (toString n) = twoDigits n := by
  decide


theorem toStr_fin_natCast (n : Nat) : JSNum.toStr (.fin (n : Int)) = toString n := rfl

theorem mod_fin_natCast (k m : Nat) (hm : m ≠ 0) :
    (JSNum.fin (k : Int)).mod (.fin (m : Int)) = .fin ((k % m : Nat) : Int) := by
  have hm2 : (m : Int) ≠ 0 := by exact_mod_cast hm
  simp only [JSNum.mod, hm2, if_false, Int.natAbs_ofNat]
  rcases Nat.eq_zero_or_pos k with rfl | hk
  · simp
  · have : Int.sign (k : Int) = 1 := Int.sign_eq_one_of_pos (by exact_mod_cast hk)
    rw [this, one_mul]

theorem floorDiv_fin_natCast (k m : Nat) (hm : m ≠ 0) :
    (JSNum.fin (k : Int)).floorDiv (.fin (m : Int)) = .fin ((k / m : Nat) : Int) := by
  have hm2 : (m : Int) ≠ 0 := by exact_mod_cast hm
  simp only [JSNum.floorDiv, hm2, if_false]
  rw [Int.fdiv_eq_ediv _ (Int.ofNat_nonneg m)]
  norm_cast

/-- The `timeStr` the handler builds from a non-negative `adjusted` value is the
zero-padded `HH:MM` of its minute of the day. -/
theorem timeStr_natCast (a : Nat) :
    padStart2 (((JSNum.fin (a : Int)).mod (.fin 1440)).floorDiv (.fin 60)).toStr ++ ":" ++
      padStart2 (((JSNum.fin (a : Int)).mod (.fin 1440)).mod (.fin 60)).toStr
      = hhmm (a % 1440) := by
  have h1 := mod_fin_natCast a 1440 (by decide)
  have h2 := floorDiv_fin_natCast (a % 1440) 60 (by decide)
  have h3 := mod_fin_natCast (a % 1440) 60 (by decide)
  simp only [Nat.cast_ofNat] at h1 h2 h3
  rw [h1, h2, h3, toStr_fin_natCast, toStr_fin_natCast]
  have hlt : a % 1440 / 60 < 60 := by omega
  have hlt2 : a % 1440 % 60 < 60 := by omega
  rw [padStart2_toString_eq_twoDigits _ hlt, padStart2_toString_eq_twoDigits _ hlt2]
  rfl

theorem parseHHMM_of_rowMinutes {H : Host} {t : String} {n : Int}
    (h : rowMinutes H t = some n) :
    ∃ hh mm : Int, parseHHMM H t = (some (.fin hh), some (.fin mm)) ∧ n = hh * 60 + mm := by
  unfold rowMinutes at h
  split at h
  · rename_i hh mm heq
    exact ⟨hh, mm, heq, by simpa using h.symm⟩
  · simp at h

theorem window_step (a : Int) (nowMin : Nat) :
    (if (decide (a + -(nowMin : Int) < 0) || decide (1440 < a + -(nowMin : Int))) = true then none
      else some
        { adjusted := JSNum.fin a
          timeStr :=
            padStart2 (((JSNum.fin a).mod (.fin 1440)).floorDiv (.fin 60)).toStr ++ ":" ++
              padStart2 (((JSNum.fin a).mod (.fin 1440)).mod (.fin 60)).toStr
          isTomorrow := decide (1440 ≤ a) : Upcoming }) =
      if 0 ≤ a - (nowMin : Int) ∧ a - (nowMin : Int) ≤ 1440 then
        some { adjusted := .fin a, timeStr := hhmm (a.toNat % 1440), isTomorrow := decide (1440 ≤ a) }
      else none := by
  by_cases hw : 0 ≤ a - (nowMin : Int) ∧ a - (nowMin : Int) ≤ 1440
  · have h1 : ¬ (a + -(nowMin : Int) < 0) := by omega
    have h2 : ¬ (1440 < a + -(nowMin : Int)) := by omega
    have ha : a = ((a.toNat : Nat) : Int) := by omega
    rw [if_pos hw]
    simp only [h1, h2, decide_False, Bool.or_self, Bool.false_eq_true, if_false]
    congr 2
    conv_lhs => rw [ha]
    exact timeStr_natCast a.toNat
  · have h3 : a + -(nowMin : Int) < 0 ∨ 1440 < a + -(nowMin : Int) := by omega
    rw [if_neg hw]
    rcases h3 with h3 | h3 <;> simp [h3]

/-- What the handler's callback does on a row that stands for a schedule time. -/
theorem toUpcoming_of_rowMinutes {H : Host} {t : String} {n : Int} (nowMin : Nat)
    (h : rowMinutes H t = some n) :
    toUpcoming H nowMin t =
      if 0 ≤ diffMinutes nowMin n ∧ diffMinutes nowMin n ≤ 1440 then
        some { adjusted := .fin (adjustedMinutes nowMin n)
               timeStr := hhmm ((adjustedMinutes nowMin n).toNat % 1440)
               isTomorrow := decide (1440 ≤ adjustedMinutes nowMin n) }
      else none := by
  obtain ⟨hh, mm, hp, rfl⟩ := parseHHMM_of_rowMinutes h
  simp only [toUpcoming, hp, slotIsNaN, slotToNumber, JSNum.isNaN, JSNum.mul, JSNum.add,
    Bool.or_self, Bool.false_eq_true, if_false, JSNum.lt, diffMinutes, adjustedMinutes]
  by_cases hc : hh * 60 + mm < 1440 ∧ hh * 60 + mm < (nowMin : Int)
  · have hc1 := hc.1
    have hc2 := hc.2
    simp only [hc1, hc2, decide_True, Bool.and_self, if_true, and_self, JSNum.add, JSNum.sub,
      JSNum.neg, JSNum.lt, JSNum.gt, JSNum.ge]
    exact window_step _ _
  · have hc3 : (decide (hh * 60 + mm < 1440) && decide (hh * 60 + mm < (nowMin : Int))) = false := by
      simpa using hc
    simp only [hc3, hc, Bool.false_eq_true, if_false, JSNum.add, JSNum.sub,
      JSNum.neg, JSNum.lt, JSNum.gt, JSNum.ge]
    exact window_step _ _

theorem filterMap_filter_of_none {α β : Type} (f : α → Option β) (p : α → Bool)
    (hp : ∀ a, p a = false → f a = none) (l : List α) :
    (l.filter p).filterMap f = l.filterMap f := by
  induction l with
  | nil => rfl
  | cons a l ih =>
    cases hpa : p a with
    | true => simp [List.filter_cons, hpa, List.filterMap_cons, ih]
    | false => simp [List.filter_cons, hpa, List.filterMap_cons, hp a hpa, ih]

theorem toUpcoming_of_outOfWindow {H : Host} {nowMin : Nat} {t : String}
    (h : rowOutOfWindow H nowMin t = true) : toUpcoming H nowMin t = none := by
  unfold rowOutOfWindow at h
  split at h
  · rename_i n hn
    rw [toUpcoming_of_rowMinutes nowMin hn, if_neg]
    have := of_decide_eq_true h
    omega
  · simp at h

theorem mem_upcomingRecords {H : Host} {nowMin : Nat} {rows : List String} {x : Upcoming}
    (hx : x ∈ upcomingRecords H nowMin rows) :
    ∃ t ∈ rows, toUpcoming H nowMin t = some x := by
  have h1 := List.mem_of_mem_take hx
  have h2 := (List.perm_insertionSort notAfter _).mem_iff.1 h1
  exact List.mem_filterMap.1 h2

/-! ## Theorems on the `/arrivals` handler -/

/-- **C1.** For rows that stand for schedule times, with `adjusted` and `diff` as the
specification defines them: a row whose `diff` is negative or above `1440` is rejected by
the handler and removing all such rows leaves the answer unchanged, and every element of
the answer is the rendering of a row whose `diff` lies in `[0, 1440]`. -/
theorem arrivals_only_within_window (H : Host) (nowMin : Nat) (rows : List String)
    (hrows : ∀ t ∈ rows, (rowMinutes H t).isSome = true) :
    (∀ t ∈ rows, ∀ n, rowMinutes H t = some n →
        (diffMinutes nowMin n < 0 ∨ 1440 < diffMinutes nowMin n) →
        toUpcoming H nowMin t = none) ∧
    arrivals H nowMin (rows.filter (fun t => !rowOutOfWindow H nowMin t)) =
        arrivals H nowMin rows ∧
    ∀ s ∈ arrivals H nowMin rows, ∃ t ∈ rows, ∃ n x, rowMinutes H t = some n ∧
        0 ≤ diffMinutes nowMin n ∧ diffMinutes nowMin n ≤ 1440 ∧
        toUpcoming H nowMin t = some x ∧ s = render x := by
  refine ⟨?_, ?_, ?_⟩
  · intro t _ n hn hd
    rw [toUpcoming_of_rowMinutes nowMin hn, if_neg]
    omega
  · unfold arrivals upcomingRecords
    rw [filterMap_filter_of_none]
    intro t ht
    exact toUpcoming_of_outOfWindow (by simpa using ht)
  · intro s hs
    obtain ⟨x, hx, rfl⟩ := List.mem_map.1 hs
    obtain ⟨t, ht, htx⟩ := mem_upcomingRecords hx
    obtain ⟨n, hn⟩ := Option.isSome_iff_exists.1 (hrows t ht)
    refine ⟨t, ht, n, x, hn, ?_, ?_, htx, rfl⟩
    · by_contra hc
      rw [toUpcoming_of_rowMinutes nowMin hn, if_neg (fun h => hc h.1)] at htx
      simp at htx
    · by_contra hc
      rw [toUpcoming_of_rowMinutes nowMin hn, if_neg (fun h => hc h.2)] at htx
      simp at htx

/-- The statement of `arrivals_only_within_window` at 23:50 on four rows, one of which
(`48:00`) lies beyond the window. -/
theorem arrivals_only_within_window_witness :
    (∀ t ∈ ["23:55:00", "48:00:00", "24:10:00", "00:10:00"],
        (rowMinutes refHost t).isSome = true) ∧
    arrivals refHost 1430
        (["23:55:00", "48:00:00", "24:10:00", "00:10:00"].filter
          (fun t => !rowOutOfWindow refHost 1430 t)) =
      arrivals refHost 1430 ["23:55:00", "48:00:00", "24:10:00", "00:10:00"] :=
  ⟨by decide,
    (arrivals_only_within_window refHost 1430
      ["23:55:00", "48:00:00", "24:10:00", "00:10:00"] (by decide)).2.1⟩

/-- **C2.** A row that stands for a time of today that has already passed
(`0 ≤ timeOfDay < nowMinutes ≤ 1439`) is retained by the handler with
`adjusted = timeOfDay + 1440`, flagged as tomorrow, and rendered as the zero-padded `HH:MM`
of `timeOfDay` followed by `" (tomorrow)"`. -/
theorem passed_today_is_tomorrow (H : Host) (nowMin : Nat) (t : String) (timeOfDay : Nat)
    (hnow : nowMin ≤ 1439) (ht : rowMinutes H t = some (timeOfDay : Int))
    (hpassed : timeOfDay < nowMin) :
    toUpcoming H nowMin t =
      some { adjusted := .fin ((timeOfDay : Int) + 1440), timeStr := hhmm timeOfDay,
             isTomorrow := true } ∧
    render { adjusted := .fin ((timeOfDay : Int) + 1440), timeStr := hhmm timeOfDay,
             isTomorrow := true } = hhmm timeOfDay ++ " (tomorrow)" := by
  refine ⟨?_, rfl⟩
  have hadj : adjustedMinutes nowMin (timeOfDay : Int) = (timeOfDay : Int) + 1440 := by
    unfold adjustedMinutes
    rw [if_pos]
    omega
  rw [toUpcoming_of_rowMinutes nowMin ht, if_pos]
  · rw [hadj]
    have h1 : ((timeOfDay : Int) + 1440).toNat % 1440 = timeOfDay := by omega
    have h2 : decide (1440 ≤ (timeOfDay : Int) + 1440) = true := by
      apply decide_eq_true
      omega
    rw [h1, h2]
  · unfold diffMinutes
    rw [hadj]
    omega

/-- The statement of `passed_today_is_tomorrow` at 23:50 on the row `00:10:00`. -/
theorem passed_today_is_tomorrow_witness :
    toUpcoming refHost 1430 "00:10:00" =
      some { adjusted := .fin 1450, timeStr := "00:10", isTomorrow := true } ∧
    render { adjusted := .fin 1450, timeStr := "00:10", isTomorrow := true } =
      "00:10 (tomorrow)" :=
  passed_today_is_tomorrow refHost 1430 "00:10:00" 10 (by decide) (by decide) (by decide)


/-! ### Order of the answer -/

theorem adjustedLE_of_notAfter {a b : Upcoming} {x y : Int} (ha : a.adjusted = .fin x)
    (hb : b.adjusted = .fin y) (h : notAfter a b) : adjustedLE a b := by
  unfold notAfter at h
  unfold adjustedLE
  simp only [ha, hb, JSNum.sub, JSNum.neg, JSNum.add, JSNum.gt, JSNum.lt, JSNum.le,
    JSNum.ge] at h ⊢
  have := of_decide_eq_false h
  apply decide_eq_true
  omega

theorem adjustedLE_of_not_notAfter {a b : Upcoming} {x y : Int} (ha : a.adjusted = .fin x)
    (hb : b.adjusted = .fin y) (h : ¬ notAfter a b) : adjustedLE b a := by
  unfold notAfter at h
  unfold adjustedLE
  simp only [ha, hb, JSNum.sub, JSNum.neg, JSNum.add, JSNum.gt, JSNum.lt, JSNum.le,
    JSNum.ge] at h ⊢
  have := of_decide_eq_true (by simpa using h : decide (0 < x + -y) = true)
  apply decide_eq_true
  omega

theorem adjustedLE_trans {a b c : Upcoming} (hab : adjustedLE a b) (hbc : adjustedLE b c) :
    adjustedLE a c := by
  unfold adjustedLE at *
  rcases a with ⟨aa, _, _⟩
  rcases b with ⟨ba, _, _⟩
  rcases c with ⟨ca, _, _⟩
  cases aa <;> cases ba <;> cases ca <;>
    simp only [JSNum.le, JSNum.ge, Bool.false_eq_true, decide_eq_true_eq] at hab hbc ⊢
  omega

theorem pairwise_orderedInsert (a : Upcoming) (ha : ∃ n, a.adjusted = .fin n) :
    ∀ l : List Upcoming, (∀ x ∈ l, ∃ n, x.adjusted = .fin n) → l.Pairwise adjustedLE →
      (l.orderedInsert notAfter a).Pairwise adjustedLE
  | [], _, _ => by simp
  | b :: l, hfin, hs => by
    obtain ⟨n, hn⟩ := ha
    obtain ⟨m, hm⟩ := hfin b (List.mem_cons_self b l)
    have hs' := List.pairwise_cons.1 hs
    by_cases hab : notAfter a b
    · rw [List.orderedInsert, if_pos hab]
      refine List.pairwise_cons.2 ⟨?_, hs⟩
      intro c hc
      have hle := adjustedLE_of_notAfter hn hm hab
      rcases List.mem_cons.1 hc with rfl | hc
      · exact hle
      · exact adjustedLE_trans hle (hs'.1 c hc)
    · rw [List.orderedInsert, if_neg hab]
      refine List.pairwise_cons.2 ⟨?_, ?_⟩
      · intro c hc
        rcases (List.mem_orderedInsert notAfter).1 hc with rfl | hc
        · exact adjustedLE_of_not_notAfter hn hm hab
        · exact hs'.1 c hc
      · exact pairwise_orderedInsert a ⟨n, hn⟩ l
          (fun x hx => hfin x (List.mem_cons_of_mem b hx)) hs'.2

theorem pairwise_insertionSort :
    ∀ l : List Upcoming, (∀ x ∈ l, ∃ n, x.adjusted = .fin n) →
      (l.insertionSort notAfter).Pairwise adjustedLE
  | [], _ => by simp
  | a :: l, hfin => by
    rw [List.insertionSort]
    refine pairwise_orderedInsert a (hfin a (List.mem_cons_self a l)) _ ?_
      (pairwise_insertionSort l (fun x hx => hfin x (List.mem_cons_of_mem a hx)))
    intro x hx
    exact hfin x (List.mem_cons_of_mem a ((List.mem_insertionSort notAfter).1 hx))

theorem adjusted_fin_of_rowMinutes {H : Host} {nowMin : Nat} {t : String} {x : Upcoming}
    (ht : (rowMinutes H t).isSome = true) (hx : toUpcoming H nowMin t = some x) :
    ∃ n, x.adjusted = .fin n := by
  obtain ⟨n, hn⟩ := Option.isSome_iff_exists.1 ht
  rw [toUpcoming_of_rowMinutes nowMin hn] at hx
  split at hx
  · refine ⟨adjustedMinutes nowMin n, ?_⟩
    cases hx
    rfl
  · simp at hx

/-- **C4.** For rows that stand for schedule times, the sequence of retained departures that
the handler renders is non-decreasing in `adjusted`: every adjacent pair is in order (and so
is every pair). -/
theorem arrivals_sorted_by_adjusted (H : Host) (nowMin : Nat) (rows : List String)
    (hrows : ∀ t ∈ rows, (rowMinutes H t).isSome = true) :
    arrivals H nowMin rows = (upcomingRecords H nowMin rows).map render ∧
    (upcomingRecords H nowMin rows).Chain' adjustedLE ∧
    (upcomingRecords H nowMin rows).Pairwise adjustedLE := by
  have hp : (upcomingRecords H nowMin rows).Pairwise adjustedLE := by
    unfold upcomingRecords
    refine List.Pairwise.sublist (List.take_sublist _ _) (pairwise_insertionSort _ ?_)
    intro x hx
    obtain ⟨t, ht, htx⟩ := List.mem_filterMap.1 hx
    exact adjusted_fin_of_rowMinutes (hrows t ht) htx
  exact ⟨rfl, hp.chain', hp⟩

/-- The statement of `arrivals_sorted_by_adjusted` at 23:50 on three rows. -/
theorem arrivals_sorted_by_adjusted_witness :
    (∀ t ∈ ["00:10:00", "24:10:00", "23:55:00"], (rowMinutes refHost t).isSome = true) ∧
    (upcomingRecords refHost 1430 ["00:10:00", "24:10:00", "23:55:00"]).Chain' adjustedLE :=
  ⟨by decide,
    (arrivals_sorted_by_adjusted refHost 1430 ["00:10:00", "24:10:00", "23:55:00"]
      (by decide)).2.1⟩


/-! ### Rows of today that have not passed, and the bound of 200 -/

set_option maxRecDepth 100000 in
/-- **C3 as stated fails.** At midnight, on the 201 rows `00:00`, `00:01`, ..., `03:20`, the
row `03:20` stands for a time of today that has not passed (`0 ≤ 200 < 1440`), yet the
answer does not contain `03:20`: only the first 200 retained departures are sent. -/
theorem today_row_cut_by_slice :
    "03:20" ∈ (List.range 201).map hhmm ∧
    rowMinutes refHost "03:20" = some 200 ∧ (0 : Int) ≤ 200 ∧ (200 : Int) < 1440 ∧
    hhmm 200 = "03:20" ∧
    "03:20" ∉ arrivals refHost 0 ((List.range 201).map hhmm) := by
  decide

theorem take_insertionSort_of_length_le {l : List Upcoming} (h : l.length ≤ 200) :
    (l.insertionSort notAfter).take 200 = l.insertionSort notAfter := by
  apply List.take_of_length_le
  rw [List.length_insertionSort]
  exact h

/-- In a list of records with integer `adjusted` values in non-decreasing order, a record
of the list has a record with the same `adjusted` value among the first `k + 1`, where `k`
is the number of records with a smaller `adjusted` value. -/
theorem exists_mem_take_of_pairwise (x : Upcoming) :
    ∀ L : List Upcoming, (∀ y ∈ L, ∃ n, y.adjusted = .fin n) → L.Pairwise adjustedLE →
      x ∈ L →
      ∃ y ∈ L.take ((L.filter (fun y => y.adjusted.lt x.adjusted)).length + 1),
        y.adjusted = x.adjusted
  | [], _, _, hx => by simp at hx
  | a :: L, hfin, hp, hx => by
    obtain ⟨n, hn⟩ := hfin a (List.mem_cons_self a L)
    obtain ⟨m, hm⟩ := hfin x hx
    have hp' := List.pairwise_cons.1 hp
    by_cases hlt : a.adjusted.lt x.adjusted = true
    · have hxa : x ≠ a := by
        rintro rfl
        simp [hm, JSNum.lt] at hlt
      have hxL : x ∈ L := by
        rcases List.mem_cons.1 hx with h | h
        · exact absurd h hxa
        · exact h
      obtain ⟨y, hy, hya⟩ := exists_mem_take_of_pairwise x L
        (fun y hy => hfin y (List.mem_cons_of_mem a hy)) hp'.2 hxL
      have hf : (a :: L).filter (fun y => y.adjusted.lt x.adjusted) =
          a :: L.filter (fun y => y.adjusted.lt x.adjusted) := by
        simp [List.filter_cons, hlt]
      refine ⟨y, ?_, hya⟩
      rw [hf, List.length_cons, List.take_succ_cons]
      exact List.mem_cons_of_mem a hy
    · refine ⟨a, ?_, ?_⟩
      · rw [List.take_succ_cons]
        exact List.mem_cons_self a _
      · have h1 : m ≤ n := by
          simp only [hn, hm, JSNum.lt, decide_eq_true_eq] at hlt
          omega
        have h2 : n ≤ m := by
          rcases List.mem_cons.1 hx with h | h
          · rw [h, hn] at hm
            injection hm with hm
            omega
          · have hle := hp'.1 x h
            unfold adjustedLE at hle
            simp only [hn, hm, JSNum.le, JSNum.ge, decide_eq_true_eq] at hle
            exact hle
        rw [hn, hm]
        congr 1
        omega

/-- The record the handler builds for a row that stands for a schedule time is determined
by its `adjusted` value when that value is a minute of today. -/
theorem upcoming_eq_of_adjusted {H : Host} {nowMin : Nat} {t : String} {y : Upcoming}
    {a : Nat} (ht : (rowMinutes H t).isSome = true) (hy : toUpcoming H nowMin t = some y)
    (ha : y.adjusted = .fin (a : Int)) (hlt : a < 1440) :
    y = { adjusted := .fin (a : Int), timeStr := hhmm a, isTomorrow := false } := by
  obtain ⟨n, hn⟩ := Option.isSome_iff_exists.1 ht
  rw [toUpcoming_of_rowMinutes nowMin hn] at hy
  split at hy
  · cases hy
    simp only [JSNum.fin.injEq] at ha
    rw [ha]
    have h1 : ((a : Int)).toNat % 1440 = a := by omega
    have h2 : decide (1440 ≤ (a : Int)) = false := by
      apply decide_eq_false
      omega
    rw [h1, h2]
  · simp at hy

/-- No record the handler retains for a row that stands for a schedule time has an
`adjusted` value below the current minute. -/
theorem not_lt_nowMin_of_upcoming {H : Host} {nowMin : Nat} {t : String} {y : Upcoming}
    (ht : (rowMinutes H t).isSome = true) (hy : toUpcoming H nowMin t = some y) :
    y.adjusted.lt (.fin (nowMin : Int)) = false := by
  obtain ⟨n, hn⟩ := Option.isSome_iff_exists.1 ht
  rw [toUpcoming_of_rowMinutes nowMin hn] at hy
  split at hy
  · rename_i hw
    cases hy
    simp only [JSNum.lt, decide_eq_false_iff_not]
    unfold diffMinutes at hw
    omega
  · simp at hy

/-- **C3, amended.** A row that stands for a time of today that has not passed
(`nowMinutes ≤ timeOfDay < 1440`) is retained by the handler unshifted and not flagged as
tomorrow. In a list of rows that stand for schedule times, the answer contains the
zero-padded `HH:MM` of `timeOfDay` without suffix whenever fewer than 200 retained rows of
the list have a smaller `adjusted` value; in particular a row exactly at the current minute
is always in the answer. In any list, the answer contains it when at most 200 rows are
retained. -/
theorem today_row_kept_unshifted (H : Host) (nowMin : Nat) (rows : List String) (t : String)
    (timeOfDay : Nat) (hmem : t ∈ rows) (ht : rowMinutes H t = some (timeOfDay : Int))
    (hge : nowMin ≤ timeOfDay) (hlt : timeOfDay < 1440) :
    toUpcoming H nowMin t =
      some { adjusted := .fin (timeOfDay : Int), timeStr := hhmm timeOfDay,
             isTomorrow := false } ∧
    render { adjusted := .fin (timeOfDay : Int), timeStr := hhmm timeOfDay,
             isTomorrow := false } = hhmm timeOfDay ∧
    ((∀ u ∈ rows, (rowMinutes H u).isSome = true) →
      ((rows.filterMap (toUpcoming H nowMin)).filter
        (fun y => y.adjusted.lt (.fin (timeOfDay : Int)))).length < 200 →
      hhmm timeOfDay ∈ arrivals H nowMin rows) ∧
    ((∀ u ∈ rows, (rowMinutes H u).isSome = true) → timeOfDay = nowMin →
      hhmm timeOfDay ∈ arrivals H nowMin rows) ∧
    ((rows.filterMap (toUpcoming H nowMin)).length ≤ 200 →
      hhmm timeOfDay ∈ arrivals H nowMin rows) := by
  have hadj : adjustedMinutes nowMin (timeOfDay : Int) = (timeOfDay : Int) := by
    unfold adjustedMinutes
    rw [if_neg]
    omega
  have hup : toUpcoming H nowMin t =
      some { adjusted := .fin (timeOfDay : Int), timeStr := hhmm timeOfDay,
             isTomorrow := false } := by
    rw [toUpcoming_of_rowMinutes nowMin ht, if_pos]
    · rw [hadj]
      have h1 : ((timeOfDay : Int)).toNat % 1440 = timeOfDay := by omega
      have h2 : decide (1440 ≤ (timeOfDay : Int)) = false := by
        apply decide_eq_false
        omega
      rw [h1, h2]
    · unfold diffMinutes
      rw [hadj]
      omega
  have hxl : Upcoming.mk (.fin (timeOfDay : Int)) (hhmm timeOfDay) false ∈
      rows.filterMap (toUpcoming H nowMin) :=
    List.mem_filterMap.2 ⟨t, hmem, hup⟩
  have hfew : (∀ u ∈ rows, (rowMinutes H u).isSome = true) →
      ((rows.filterMap (toUpcoming H nowMin)).filter
        (fun y => y.adjusted.lt (.fin (timeOfDay : Int)))).length < 200 →
      hhmm timeOfDay ∈ arrivals H nowMin rows := by
    intro hrows hcount
    have hfin : ∀ y ∈ (rows.filterMap (toUpcoming H nowMin)).insertionSort notAfter,
        ∃ n, y.adjusted = .fin n := by
      intro y hy
      obtain ⟨u, hu, huy⟩ := List.mem_filterMap.1 ((List.mem_insertionSort notAfter).1 hy)
      exact adjusted_fin_of_rowMinutes (hrows u hu) huy
    have hsorted := pairwise_insertionSort (rows.filterMap (toUpcoming H nowMin))
      (fun y hy => hfin y ((List.mem_insertionSort notAfter).2 hy))
    obtain ⟨y, hy, hya⟩ := exists_mem_take_of_pairwise _ _ hfin hsorted
      ((List.mem_insertionSort notAfter).2 hxl)
    have hlen : (((rows.filterMap (toUpcoming H nowMin)).insertionSort notAfter).filter
        (fun y => y.adjusted.lt (.fin (timeOfDay : Int)))).length =
        ((rows.filterMap (toUpcoming H nowMin)).filter
          (fun y => y.adjusted.lt (.fin (timeOfDay : Int)))).length :=
      ((List.perm_insertionSort notAfter _).filter _).length_eq
    have hy200 : y ∈ upcomingRecords H nowMin rows := by
      unfold upcomingRecords
      refine List.take_subset_take_left _ ?_ hy
      simp only [] at hlen ⊢
      omega
    obtain ⟨u, hu, huy⟩ := List.mem_filterMap.1
      ((List.mem_insertionSort notAfter).1 (List.mem_of_mem_take hy))
    have hyx := upcoming_eq_of_adjusted (hrows u hu) huy hya hlt
    unfold arrivals
    exact List.mem_map.2 ⟨y, hy200, by rw [hyx]; rfl⟩
  refine ⟨hup, rfl, hfew, ?_, ?_⟩
  · intro hrows hnow
    apply hfew hrows
    have hnone : (rows.filterMap (toUpcoming H nowMin)).filter
        (fun y => y.adjusted.lt (.fin (timeOfDay : Int))) = [] := by
      rw [List.filter_eq_nil_iff]
      intro y hy
      obtain ⟨u, hu, huy⟩ := List.mem_filterMap.1 hy
      rw [hnow, not_lt_nowMin_of_upcoming (hrows u hu) huy]
      exact Bool.false_ne_true
    rw [hnone]
    exact Nat.zero_lt_succ _
  · intro hcap
    unfold arrivals upcomingRecords
    rw [take_insertionSort_of_length_le hcap]
    refine List.mem_map.2
      ⟨{ adjusted := .fin (timeOfDay : Int), timeStr := hhmm timeOfDay, isTomorrow := false },
        ?_, rfl⟩
    rw [List.mem_insertionSort]
    exact hxl

/-- The statement of `today_row_kept_unshifted` at 23:50 on three rows, for the row
`23:50:00` of the current minute. -/
theorem today_row_kept_unshifted_witness :
    "23:50:00" ∈ ["00:10:00", "23:50:00", "24:10:00"] ∧
    rowMinutes refHost "23:50:00" = some 1430 ∧
    (∀ u ∈ ["00:10:00", "23:50:00", "24:10:00"], (rowMinutes refHost u).isSome = true) ∧
    "23:50" ∈ arrivals refHost 1430 ["00:10:00", "23:50:00", "24:10:00"] :=
  ⟨by decide, by decide, by decide,
    (today_row_kept_unshifted refHost 1430 ["00:10:00", "23:50:00", "24:10:00"] "23:50:00"
      1430 (by decide) (by decide) (by decide) (by decide)).2.2.2.1 (by decide) rfl⟩

/-! ### Length of the answer -/

theorem length_filterMap_toUpcoming (H : Host) (nowMin : Nat) :
    ∀ rows : List String, (∀ t ∈ rows, (rowMinutes H t).isSome = true) →
      (rows.filterMap (toUpcoming H nowMin)).length = countInWindow H nowMin rows
  | [], _ => rfl
  | t :: rows, hrows => by
    have ih := length_filterMap_toUpcoming H nowMin rows
      (fun u hu => hrows u (List.mem_cons_of_mem t hu))
    obtain ⟨n, hn⟩ := Option.isSome_iff_exists.1 (hrows t (List.mem_cons_self t rows))
    unfold countInWindow at ih ⊢
    by_cases hw : 0 ≤ diffMinutes nowMin n ∧ diffMinutes nowMin n ≤ 1440
    · have h1 := toUpcoming_of_rowMinutes nowMin hn
      rw [if_pos hw] at h1
      have h2 : rowInWindow H nowMin t = true := by
        simp only [rowInWindow, hn]
        exact decide_eq_true hw
      rw [List.filterMap_cons_some h1, List.filter_cons_of_pos h2, List.length_cons,
        List.length_cons, ih]
    · have h1 : toUpcoming H nowMin t = none := by
        rw [toUpcoming_of_rowMinutes nowMin hn, if_neg hw]
      have h2 : ¬ rowInWindow H nowMin t = true := by
        simp only [rowInWindow, hn]
        simpa using hw
      rw [List.filterMap_cons_none h1, List.filter_cons_of_neg h2, ih]

/-- **C5.** For rows that stand for schedule times, the answer has as many elements as there
are rows whose `diff` lies in `[0, 1440]`, up to the bound of 200: nothing else is removed,
so rows with the same `adjusted` value are all retained. At 23:50 the rows 23:55, 24:10
and 00:10 give `23:55`, `00:10 (tomorrow)`, `00:10 (tomorrow)`. -/
theorem arrivals_length_and_scenario :
    (∀ (H : Host) (nowMin : Nat) (rows : List String),
      (∀ t ∈ rows, (rowMinutes H t).isSome = true) →
      (arrivals H nowMin rows).length = min 200 (countInWindow H nowMin rows)) ∧
    rowMinutes refHost "23:55:00" = some 1435 ∧ rowMinutes refHost "24:10:00" = some 1450 ∧
    rowMinutes refHost "00:10:00" = some 10 ∧
    arrivals refHost 1430 ["23:55:00", "24:10:00", "00:10:00"] =
      ["23:55", "00:10 (tomorrow)", "00:10 (tomorrow)"] := by
  refine ⟨?_, by decide, by decide, by decide, by decide⟩
  intro H nowMin rows hrows
  unfold arrivals upcomingRecords
  rw [List.length_map, List.length_take, List.length_insertionSort,
    length_filterMap_toUpcoming H nowMin rows hrows]

/-- The general part of `arrivals_length_and_scenario` at 23:50 on four rows, one of which
lies beyond the window. -/
theorem arrivals_length_and_scenario_witness :
    (∀ t ∈ ["23:55:00", "48:00:00", "24:10:00", "00:10:00"],
        (rowMinutes refHost t).isSome = true) ∧
    (arrivals refHost 1430 ["23:55:00", "48:00:00", "24:10:00", "00:10:00"]).length =
      min 200 (countInWindow refHost 1430 ["23:55:00", "48:00:00", "24:10:00", "00:10:00"]) :=
  ⟨by decide,
    arrivals_length_and_scenario.1 refHost 1430
      ["23:55:00", "48:00:00", "24:10:00", "00:10:00"] (by decide)⟩

/-! ### Rows that are not `HH:MM` -/

/-- A row whose hour or minute component `Number` maps to `NaN` is rejected. -/
theorem toUpcoming_of_nan_component (H : Host) (nowMin : Nat) (t : String)
    (h : (parseHHMM H t).1 = some .nan ∨ (parseHHMM H t).2 = some .nan) :
    toUpcoming H nowMin t = none := by
  unfold toUpcoming
  rcases hp : parseHHMM H t with ⟨hh, mm⟩
  rw [hp] at h
  rcases h with h | h <;> simp only [] at h <;> subst h <;>
    simp [slotIsNaN, JSNum.isNaN]

/-- **C6, failing input.** The row `12` has no minute component: the destructured `mm` is
`undefined`, which `Number.isNaN` does not report, so the row is not dropped and the answer
at 10:00 is `NaN:NaN`, where resolving the list without the row gives the empty answer. The
empty row behaves in the same way. -/
theorem row_without_minute_not_dropped :
    parseHHMM refHost "12" = (some (.fin 12), none) ∧
    toUpcoming refHost 600 "12" =
      some { adjusted := .nan, timeStr := "NaN:NaN", isTomorrow := false } ∧
    arrivals refHost 600 ["12"] = ["NaN:NaN"] ∧
    arrivals refHost 600 [] = [] ∧
    parseHHMM refHost "" = (some (.fin 0), none) ∧
    arrivals refHost 600 [""] = ["NaN:NaN"] := by
  decide


/-! ## Theorems on the buses cache -/

theorem run_key_of_not_setsKey {V : Type} (cache : BusesCache V) (key : String)
    (c : CacheCall V) (hc : ¬ c.setsKey key) :
    c.run cache key = cache key ∨ c.run cache key = none := by
  cases c with
  | get k tm =>
    simp only [CacheCall.run, getCachedBuses]
    cases hk : cache k with
    | none => exact Or.inl rfl
    | some hit =>
      by_cases hexp : tm > hit.expiresAt
      · simp only [hexp, if_true, mapDelete]
        by_cases hkk : key = k
        · exact Or.inr (by simp [hkk])
        · exact Or.inl (by simp [hkk])
      · simp only [hexp, if_false]
        exact Or.inl trivial
  | set k v tm =>
    have hkk : key ≠ k := fun h => hc h.symm
    exact Or.inl (by simp [CacheCall.run, setCachedBuses, mapSet, hkk])

theorem run_key_of_fresh {V : Type} (cache : BusesCache V) (key : String) (e : CacheEntry V)
    (c : CacheCall V) (he : cache key = some e) (hc : ¬ c.setsKey key)
    (ht : c.time ≤ e.expiresAt) : c.run cache key = some e := by
  cases c with
  | get k tm =>
    simp only [CacheCall.run, getCachedBuses]
    cases hk : cache k with
    | none => exact he
    | some hit =>
      by_cases hexp : tm > hit.expiresAt
      · simp only [hexp, if_true, mapDelete]
        have hkk : key ≠ k := by
          rintro rfl
          rw [he] at hk
          cases hk
          simp only [CacheCall.time] at ht
          omega
        simpa [hkk] using he
      · simp only [hexp, if_false]
        exact he
  | set k v tm =>
    have hkk : key ≠ k := fun h => hc h.symm
    simpa [CacheCall.run, setCachedBuses, mapSet, hkk] using he

theorem runCalls_key_of_not_setsKey {V : Type} (key : String) :
    ∀ (calls : List (CacheCall V)) (cache : BusesCache V),
      (∀ c ∈ calls, ¬ c.setsKey key) →
      runCalls cache calls key = cache key ∨ runCalls cache calls key = none
  | [], _, _ => Or.inl rfl
  | c :: calls, cache, hno => by
    have ih := runCalls_key_of_not_setsKey key calls (c.run cache)
      (fun d hd => hno d (List.mem_cons_of_mem c hd))
    have h1 := run_key_of_not_setsKey cache key c (hno c (List.mem_cons_self c calls))
    simp only [runCalls, List.foldl_cons] at ih ⊢
    rcases ih with ih | ih
    · rcases h1 with h1 | h1
      · exact Or.inl (ih.trans h1)
      · exact Or.inr (ih.trans h1)
    · exact Or.inr ih

theorem runCalls_key_of_fresh {V : Type} (key : String) (e : CacheEntry V) :
    ∀ (calls : List (CacheCall V)) (cache : BusesCache V), cache key = some e →
      (∀ c ∈ calls, ¬ c.setsKey key) → (∀ c ∈ calls, c.time ≤ e.expiresAt) →
      runCalls cache calls key = some e
  | [], _, he, _, _ => he
  | c :: calls, cache, he, hno, ht => by
    have h1 := run_key_of_fresh cache key e c he (hno c (List.mem_cons_self c calls))
      (ht c (List.mem_cons_self c calls))
    have ih := runCalls_key_of_fresh key e calls (c.run cache) h1
      (fun d hd => hno d (List.mem_cons_of_mem c hd))
      (fun d hd => ht d (List.mem_cons_of_mem c hd))
    simpa only [runCalls, List.foldl_cons] using ih

theorem getCachedBuses_setCachedBuses {V : Type} (cache : BusesCache V) (key : String) (v : V)
    (t t' : Int) (h : t' ≤ t + 300000) :
    (getCachedBuses (setCachedBuses cache t key v) t' key).1 = some v := by
  have hexp : ¬ t' > t + BUSES_TTL_MS := by
    simp only [BUSES_TTL_MS]
    omega
  simp [getCachedBuses, setCachedBuses, mapSet, hexp]

/-- **C7.** After `setCachedBuses(k, v)` at time `t`, whatever the map held before, and
after any calls that store nothing for `k` and happen no later than `t'`:
`getCachedBuses(k)` at time `t'` returns `v` and leaves the map as it is when
`t' ≤ t + 300000`; when `t' > t + 300000` it returns `null` and the map has no entry for `k`
afterwards, and a new `setCachedBuses(k, w)` is then returned by `getCachedBuses(k)` again
for the next 300000 ms. -/
theorem cache_set_then_get {V : Type} (cache : BusesCache V) (k : String) (v : V)
    (t t' : Int) (calls : List (CacheCall V))
    (hno : ∀ c ∈ calls, ¬ c.setsKey k) (htime : ∀ c ∈ calls, c.time ≤ t') :
    (t' ≤ t + 300000 →
      getCachedBuses (runCalls (setCachedBuses cache t k v) calls) t' k =
        (some v, runCalls (setCachedBuses cache t k v) calls)) ∧
    (t + 300000 < t' →
      (getCachedBuses (runCalls (setCachedBuses cache t k v) calls) t' k).1 = none ∧
      (getCachedBuses (runCalls (setCachedBuses cache t k v) calls) t' k).2 k = none ∧
      ∀ (w : V) (u u' : Int), u' ≤ u + 300000 →
        (getCachedBuses
          (setCachedBuses (getCachedBuses (runCalls (setCachedBuses cache t k v) calls) t' k).2
            u k w) u' k).1 = some w) := by
  have hset : setCachedBuses cache t k v k = some { expiresAt := t + BUSES_TTL_MS, data := v } := by
    simp [setCachedBuses, mapSet]
  refine ⟨?_, ?_⟩
  · intro hle
    have hfresh := runCalls_key_of_fresh k _ calls _ hset hno
      (fun c hc => by
        have := htime c hc
        simp only [BUSES_TTL_MS]
        omega)
    have hexp : ¬ t' > t + BUSES_TTL_MS := by
      simp only [BUSES_TTL_MS]
      omega
    simp only [getCachedBuses, hfresh, hexp, if_false]
  · intro hgt
    have hexp : t' > t + BUSES_TTL_MS := by
      simp only [BUSES_TTL_MS]
      omega
    have hor := runCalls_key_of_not_setsKey k calls (setCachedBuses cache t k v) hno
    rw [hset] at hor
    refine ⟨?_, ?_, ?_⟩
    · rcases hor with h | h
      · simp only [getCachedBuses, h, hexp, if_true]
      · simp only [getCachedBuses, h]
    · rcases hor with h | h
      · simp [getCachedBuses, h, hexp, mapDelete]
      · simp only [getCachedBuses, h]
    · intro w u u' hu
      exact getCachedBuses_setCachedBuses _ k w u u' hu

/-- The statement of `cache_set_then_get` for a `get` of another stop between the `set`
and the `get`, five minutes after the `set`. -/
theorem cache_set_then_get_witness :
    (∀ c ∈ [CacheCall.get (V := Nat) "7" 1200], ¬ c.setsKey "42") ∧
    (∀ c ∈ [CacheCall.get (V := Nat) "7" 1200], c.time ≤ 301000) ∧
    (getCachedBuses
      (runCalls (setCachedBuses (fun _ => none) 1000 "42" 5) [CacheCall.get "7" 1200])
      301000 "42").1 = some 5 := by
  have h1 : ∀ c ∈ [CacheCall.get (V := Nat) "7" 1200], ¬ c.setsKey "42" := by
    intro c hc
    rw [List.mem_singleton] at hc
    subst hc
    exact id
  have h2 : ∀ c ∈ [CacheCall.get (V := Nat) "7" 1200], c.time ≤ 301000 := by
    intro c hc
    rw [List.mem_singleton] at hc
    subst hc
    decide
  refine ⟨h1, h2, ?_⟩
  have h := (cache_set_then_get (fun _ => none) "42" (5 : Nat) 1000 301000
    [CacheCall.get "7" 1200] h1 h2).1 (by decide)
  rw [h]


/-! ## Theorems on the arrivals pagination -/

/-- **C8.** For a list `items` of which the first `o ≤ |items|` are rendered, one call of
`renderNextArrivalsPage` appends exactly the items `items[o .. o+5)`, moves the count to
`o + min 5 (|items| - o)`, keeps the list, and hides the show-more button exactly when the
new count is `|items|`; when all items were rendered already the call changes nothing but
hides the button. Twelve items are rendered as 5 (button shown), 5 (button shown), 2
(button hidden), and a fourth call renders nothing and keeps the button hidden. -/
theorem renderNextArrivalsPage_pages :
    (∀ (items rendered : List String) (o : Nat) (d : Bool), o ≤ items.length →
      (renderNextArrivalsPage ⟨items, o, rendered, d⟩).arrivalsList =
        rendered ++ (items.drop o).take 5 ∧
      (renderNextArrivalsPage ⟨items, o, rendered, d⟩).arrivalsShownCount =
        o + min 5 (items.length - o) ∧
      (renderNextArrivalsPage ⟨items, o, rendered, d⟩).arrivalsCache = items ∧
      ((renderNextArrivalsPage ⟨items, o, rendered, d⟩).showMoreDisplayed = false ↔
        (renderNextArrivalsPage ⟨items, o, rendered, d⟩).arrivalsShownCount = items.length) ∧
      (o = items.length →
        renderNextArrivalsPage ⟨items, o, rendered, d⟩ = ⟨items, o, rendered, false⟩)) ∧
    renderNextArrivalsPage
        ⟨["a", "b", "c", "d", "e", "f", "g", "h", "i", "j", "k", "l"], 0, [], false⟩ =
      ⟨["a", "b", "c", "d", "e", "f", "g", "h", "i", "j", "k", "l"], 5,
        ["a", "b", "c", "d", "e"], true⟩ ∧
    renderNextArrivalsPage
        ⟨["a", "b", "c", "d", "e", "f", "g", "h", "i", "j", "k", "l"], 5,
          ["a", "b", "c", "d", "e"], true⟩ =
      ⟨["a", "b", "c", "d", "e", "f", "g", "h", "i", "j", "k", "l"], 10,
        ["a", "b", "c", "d", "e", "f", "g", "h", "i", "j"], true⟩ ∧
    renderNextArrivalsPage
        ⟨["a", "b", "c", "d", "e", "f", "g", "h", "i", "j", "k", "l"], 10,
          ["a", "b", "c", "d", "e", "f", "g", "h", "i", "j"], true⟩ =
      ⟨["a", "b", "c", "d", "e", "f", "g", "h", "i", "j", "k", "l"], 12,
        ["a", "b", "c", "d", "e", "f", "g", "h", "i", "j", "k", "l"], false⟩ ∧
    renderNextArrivalsPage
        ⟨["a", "b", "c", "d", "e", "f", "g", "h", "i", "j", "k", "l"], 12,
          ["a", "b", "c", "d", "e", "f", "g", "h", "i", "j", "k", "l"], false⟩ =
      ⟨["a", "b", "c", "d", "e", "f", "g", "h", "i", "j", "k", "l"], 12,
        ["a", "b", "c", "d", "e", "f", "g", "h", "i", "j", "k", "l"], false⟩ := by
  refine ⟨?_, by decide, by decide, by decide, by decide⟩
  intro items rendered o d ho
  have hslice : jsSlice items o (o + ARRIVALS_PAGE) = (items.drop o).take 5 := by
    simp only [jsSlice, ARRIVALS_PAGE, List.drop_take, Nat.add_sub_cancel_left]
  have hlen : ((items.drop o).take 5).length = min 5 (items.length - o) := by
    rw [List.length_take, List.length_drop]
  simp only [renderNextArrivalsPage, hslice, hlen]
  refine ⟨trivial, trivial, trivial, ?_, ?_⟩
  · rw [decide_eq_false_iff_not]
    omega
  · intro he
    subst he
    simp

/-- The general part of `renderNextArrivalsPage_pages` on the last page of twelve items. -/
theorem renderNextArrivalsPage_pages_witness :
    10 ≤ ["a", "b", "c", "d", "e", "f", "g", "h", "i", "j", "k", "l"].length ∧
    (renderNextArrivalsPage
      ⟨["a", "b", "c", "d", "e", "f", "g", "h", "i", "j", "k", "l"], 10, [], true⟩).arrivalsList
      = [] ++ (["a", "b", "c", "d", "e", "f", "g", "h", "i", "j", "k", "l"].drop 10).take 5 :=
  ⟨by decide,
    (renderNextArrivalsPage_pages.1 ["a", "b", "c", "d", "e", "f", "g", "h", "i", "j", "k", "l"]
      [] 10 true (by decide)).1⟩


/-! ## Theorems on the bus sort -/

/-- The three comparisons the specification lists: `"12"` before `"12A"`, `"2"` before
`"10"`, and `"A"` after `"1"`. -/
theorem compareBuses_examples :
    compareBuses refHost ⟨some "12", some "none"⟩ ⟨some "12A", some "none"⟩ = .fin (-1) ∧
    compareBuses refHost ⟨some "2", some "none"⟩ ⟨some "10", some "none"⟩ = .fin (-8) ∧
    compareBuses refHost ⟨some "A", some "none"⟩ ⟨some "1", some "none"⟩ = .posInf := by
  decide

/-- Two identifiers that both match the pattern and have different numeric prefixes
compare as the difference of the prefixes. -/
theorem compareBuses_of_prefixes (H : Host) (a b : Bus) (da ra db rb : String)
    (ha : matchRoute (jsTrim (a.route_short_name.getD "")) = some (da, ra))
    (hb : matchRoute (jsTrim (b.route_short_name.getD "")) = some (db, rb))
    (hne : digitsValue da.toList ≠ digitsValue db.toList) :
    compareBuses H a b =
      .fin ((digitsValue da.toList : Int) - (digitsValue db.toList : Int)) := by
  simp only [compareBuses, parseRouteKey, ha, hb, JSNum.strictNe, JSNum.isNaN, JSNum.sub,
    JSNum.neg, JSNum.add, sub_eq_add_neg, Bool.false_or]
  rw [if_pos]
  apply decide_eq_true
  intro h
  injection h with h
  exact hne (by exact_mod_cast h)

/-- An identifier that does not match the pattern compares as `+Infinity` against one that
matches it. -/
theorem compareBuses_of_no_match (H : Host) (a b : Bus) (db rb : String)
    (ha : matchRoute (jsTrim (a.route_short_name.getD "")) = none)
    (hb : matchRoute (jsTrim (b.route_short_name.getD "")) = some (db, rb)) :
    compareBuses H a b = .posInf := by
  simp [compareBuses, parseRouteKey, ha, hb, JSNum.strictNe, JSNum.isNaN, JSNum.sub,
    JSNum.neg, JSNum.add]

theorem parseRouteKey_num (H : Host) (route : Option String) :
    (parseRouteKey H route).num = .posInf ∨ ∃ n : Nat, (parseRouteKey H route).num = .fin n := by
  simp only [parseRouteKey]
  cases matchRoute (jsTrim (route.getD "")) with
  | none => exact Or.inl rfl
  | some p => exact Or.inr ⟨_, rfl⟩

theorem compareBuses_self (H : Host) (hc : ConsistentCompare H.localeCompare) (a : Bus) :
    compareBuses H a a = .fin 0 := by
  unfold compareBuses
  rcases parseRouteKey_num H a.route_short_name with h | ⟨n, h⟩ <;>
    simp [h, JSNum.strictNe, JSNum.isNaN, hc.refl]

theorem compareBuses_swap (H : Host) (hc : ConsistentCompare H.localeCompare) (a b : Bus) :
    (compareBuses H b a).sgn = -(compareBuses H a b).sgn := by
  have htail : (if (parseRouteKey H b.route_short_name).suf ≠ (parseRouteKey H a.route_short_name).suf
        then JSNum.fin (H.localeCompare (parseRouteKey H b.route_short_name).suf
          (parseRouteKey H a.route_short_name).suf)
        else JSNum.fin (H.localeCompare (orEmpty b.trip_headsign) (orEmpty a.trip_headsign))).sgn =
      -(if (parseRouteKey H a.route_short_name).suf ≠ (parseRouteKey H b.route_short_name).suf
        then JSNum.fin (H.localeCompare (parseRouteKey H a.route_short_name).suf
          (parseRouteKey H b.route_short_name).suf)
        else JSNum.fin (H.localeCompare (orEmpty a.trip_headsign) (orEmpty b.trip_headsign))).sgn := by
    by_cases hs : (parseRouteKey H a.route_short_name).suf = (parseRouteKey H b.route_short_name).suf
    · rw [if_neg (not_not.2 hs.symm), if_neg (not_not.2 hs)]
      exact hc.antisymm _ _
    · rw [if_pos (fun h => hs h.symm), if_pos hs]
      exact hc.antisymm _ _
  unfold compareBuses
  rcases parseRouteKey_num H a.route_short_name with ha | ⟨n, ha⟩ <;>
  rcases parseRouteKey_num H b.route_short_name with hb | ⟨m, hb⟩
  · simp only [ha, hb, JSNum.strictNe, JSNum.isNaN, Bool.false_or, ne_eq, not_true_eq_false,
      decide_False, Bool.false_eq_true, if_false]
    exact htail
  · simp [ha, hb, JSNum.strictNe, JSNum.isNaN, JSNum.sub, JSNum.neg, JSNum.add, JSNum.sgn]
  · simp [ha, hb, JSNum.strictNe, JSNum.isNaN, JSNum.sub, JSNum.neg, JSNum.add, JSNum.sgn]
  · by_cases hnm : n = m
    · subst hnm
      simp only [ha, hb, JSNum.strictNe, JSNum.isNaN, Bool.false_or, ne_eq, not_true_eq_false,
        decide_False, Bool.false_eq_true, if_false]
      exact htail
    · have h1 : JSNum.fin (n : Int) ≠ JSNum.fin (m : Int) := by
        intro h
        injection h with h
        exact hnm (by exact_mod_cast h)
      have h2 : JSNum.fin (m : Int) ≠ JSNum.fin (n : Int) := fun h => h1 h.symm
      simp only [ha, hb, JSNum.strictNe, JSNum.isNaN, Bool.false_or, ne_eq, h1, h2,
        not_false_eq_true, decide_True, if_true, JSNum.sub, JSNum.neg, JSNum.add, JSNum.sgn]
      rw [← Int.sign_neg]
      congr 1
      omega


theorem compareBuses_neg_iff (H : Host) (a b : Bus) :
    (compareBuses H a b).lt (.fin 0) = true ↔
      (parseRouteKey H a.route_short_name).num.lt (parseRouteKey H b.route_short_name).num = true ∨
      ((parseRouteKey H a.route_short_name).num = (parseRouteKey H b.route_short_name).num ∧
        (((parseRouteKey H a.route_short_name).suf ≠ (parseRouteKey H b.route_short_name).suf ∧
            H.localeCompare (parseRouteKey H a.route_short_name).suf
              (parseRouteKey H b.route_short_name).suf < 0) ∨
          ((parseRouteKey H a.route_short_name).suf = (parseRouteKey H b.route_short_name).suf ∧
            H.localeCompare (orEmpty a.trip_headsign) (orEmpty b.trip_headsign) < 0))) := by
  unfold compareBuses
  rcases parseRouteKey_num H a.route_short_name with ha | ⟨n, ha⟩ <;>
  rcases parseRouteKey_num H b.route_short_name with hb | ⟨m, hb⟩
  · by_cases hs : (parseRouteKey H a.route_short_name).suf = (parseRouteKey H b.route_short_name).suf
    · simp [ha, hb, JSNum.strictNe, JSNum.isNaN, JSNum.lt, hs]
    · simp [ha, hb, JSNum.strictNe, JSNum.isNaN, JSNum.lt, hs]
  · simp [ha, hb, JSNum.strictNe, JSNum.isNaN, JSNum.sub, JSNum.neg, JSNum.add, JSNum.lt]
  · simp [ha, hb, JSNum.strictNe, JSNum.isNaN, JSNum.sub, JSNum.neg, JSNum.add, JSNum.lt]
  · by_cases hnm : n = m
    · subst hnm
      by_cases hs : (parseRouteKey H a.route_short_name).suf = (parseRouteKey H b.route_short_name).suf
      · simp [ha, hb, JSNum.strictNe, JSNum.isNaN, JSNum.lt, hs]
      · simp [ha, hb, JSNum.strictNe, JSNum.isNaN, JSNum.lt, hs]
    · simp only [ha, hb, JSNum.strictNe, JSNum.isNaN, Bool.false_or, ne_eq, JSNum.fin.injEq,
        Nat.cast_inj, hnm, not_false_eq_true, decide_True, if_true, JSNum.sub, JSNum.neg,
        JSNum.add, JSNum.lt, decide_eq_true_eq, false_and, or_false]
      omega

theorem compareBuses_trans (H : Host) (hc : ConsistentCompare H.localeCompare) (a b c : Bus)
    (hab : (compareBuses H a b).lt (.fin 0) = true)
    (hbc : (compareBuses H b c).lt (.fin 0) = true) :
    (compareBuses H a c).lt (.fin 0) = true := by
  rw [compareBuses_neg_iff] at hab hbc ⊢
  have hlt_trans : ∀ x y z : JSNum, x.lt y = true → y.lt z = true → x.lt z = true := by
    intro x y z hxy hyz
    cases x <;> cases y <;> cases z <;> simp only [JSNum.lt, Bool.false_eq_true,
      decide_eq_true_eq] at hxy hyz ⊢
    omega
  rcases hab with hab | ⟨hn1, hab⟩
  · rcases hbc with hbc | ⟨hn2, _⟩
    · exact Or.inl (hlt_trans _ _ _ hab hbc)
    · exact Or.inl (hn2 ▸ hab)
  · rcases hbc with hbc | ⟨hn2, hbc⟩
    · exact Or.inl (hn1 ▸ hbc)
    · refine Or.inr ⟨hn1.trans hn2, ?_⟩
      rcases hab with ⟨hs1, hl1⟩ | ⟨hs1, hl1⟩ <;> rcases hbc with ⟨hs2, hl2⟩ | ⟨hs2, hl2⟩
      · have hl := hc.trans _ _ _ hl1 hl2
        refine Or.inl ⟨?_, hl⟩
        intro h
        rw [h, hc.refl] at hl
        exact lt_irrefl _ hl
      · exact Or.inl ⟨hs2 ▸ hs1, hs2 ▸ hl1⟩
      · exact Or.inl ⟨hs1 ▸ hs2, hs1 ▸ hl2⟩
      · exact Or.inr ⟨hs1.trans hs2, hc.trans _ _ _ hl1 hl2⟩

theorem compareBuses_zero_iff (H : Host) (a b : Bus) :
    compareBuses H a b = .fin 0 ↔
      ((parseRouteKey H a.route_short_name).num = (parseRouteKey H b.route_short_name).num ∧
        (((parseRouteKey H a.route_short_name).suf ≠ (parseRouteKey H b.route_short_name).suf ∧
            H.localeCompare (parseRouteKey H a.route_short_name).suf
              (parseRouteKey H b.route_short_name).suf = 0) ∨
          ((parseRouteKey H a.route_short_name).suf = (parseRouteKey H b.route_short_name).suf ∧
            H.localeCompare (orEmpty a.trip_headsign) (orEmpty b.trip_headsign) = 0))) := by
  unfold compareBuses
  rcases parseRouteKey_num H a.route_short_name with ha | ⟨n, ha⟩ <;>
  rcases parseRouteKey_num H b.route_short_name with hb | ⟨m, hb⟩
  · by_cases hs : (parseRouteKey H a.route_short_name).suf = (parseRouteKey H b.route_short_name).suf
    · simp [ha, hb, JSNum.strictNe, JSNum.isNaN, hs]
    · simp [ha, hb, JSNum.strictNe, JSNum.isNaN, hs]
  · simp [ha, hb, JSNum.strictNe, JSNum.isNaN, JSNum.sub, JSNum.neg, JSNum.add]
  · simp [ha, hb, JSNum.strictNe, JSNum.isNaN, JSNum.sub, JSNum.neg, JSNum.add]
  · by_cases hnm : n = m
    · subst hnm
      by_cases hs : (parseRouteKey H a.route_short_name).suf = (parseRouteKey H b.route_short_name).suf
      · simp [ha, hb, JSNum.strictNe, JSNum.isNaN, hs]
      · simp [ha, hb, JSNum.strictNe, JSNum.isNaN, hs]
    · simp only [ha, hb, JSNum.strictNe, JSNum.isNaN, Bool.false_or, ne_eq, JSNum.fin.injEq,
        Nat.cast_inj, hnm, not_false_eq_true, decide_True, if_true, JSNum.sub, JSNum.neg,
        JSNum.add, false_and, iff_false]
      omega

/-- What holds of `compareBuses` for every host whose `localeCompare` is a consistent
comparator: it is `0` on equal arguments, swapping the arguments swaps the sign, and
"negative" is transitive. When moreover `localeCompare` is `0` on identical strings only,
"zero" is transitive as well. -/
theorem compareBuses_order (H : Host) (hc : ConsistentCompare H.localeCompare) (a b c : Bus) :
    compareBuses H a a = .fin 0 ∧
    (compareBuses H b a).sgn = -(compareBuses H a b).sgn ∧
    ((compareBuses H a b).lt (.fin 0) = true → (compareBuses H b c).lt (.fin 0) = true →
      (compareBuses H a c).lt (.fin 0) = true) ∧
    ((∀ x y, H.localeCompare x y = 0 → x = y) →
      compareBuses H a b = .fin 0 → compareBuses H b c = .fin 0 →
      compareBuses H a c = .fin 0) := by
  refine ⟨compareBuses_self H hc a, compareBuses_swap H hc a b, compareBuses_trans H hc a b c, ?_⟩
  intro hsep hab hbc
  rw [compareBuses_zero_iff] at hab hbc ⊢
  obtain ⟨hn1, hab⟩ := hab
  obtain ⟨hn2, hbc⟩ := hbc
  refine ⟨hn1.trans hn2, ?_⟩
  rcases hab with ⟨hs1, hl1⟩ | ⟨hs1, hl1⟩
  · exact absurd (hsep _ _ hl1) hs1
  · rcases hbc with ⟨hs2, hl2⟩ | ⟨hs2, hl2⟩
    · exact absurd (hsep _ _ hl2) hs2
    · refine Or.inr ⟨hs1.trans hs2, ?_⟩
      rw [hsep _ _ hl1, ← hsep _ _ hl2]
      exact hc.refl _

theorem compareChars_self : ∀ x : List Char, compareChars x x = 0
  | [] => rfl
  | a :: x => by
    simp only [compareChars, lt_self_iff_false, if_false]
    exact compareChars_self x

theorem compareChars_swap : ∀ x y : List Char,
    Int.sign (compareChars y x) = -Int.sign (compareChars x y)
  | [], [] => by simp [compareChars]
  | [], _ :: _ => by simp [compareChars]
  | _ :: _, [] => by simp [compareChars]
  | a :: x, b :: y => by
    simp only [compareChars]
    by_cases h1 : a.toNat < b.toNat
    · have h2 : ¬ b.toNat < a.toNat := by omega
      simp [h1, h2]
    · by_cases h2 : b.toNat < a.toNat
      · simp [h1, h2]
      · simp only [h1, h2, if_false]
        exact compareChars_swap x y

theorem compareChars_trans : ∀ x y z : List Char,
    compareChars x y < 0 → compareChars y z < 0 → compareChars x z < 0
  | [], [], _, h, _ => by simp [compareChars] at h
  | [], _ :: _, [], _, h => by simp [compareChars] at h
  | [], _ :: _, _ :: _, _, _ => by simp [compareChars]
  | _ :: _, [], _, h, _ => by simp [compareChars] at h
  | _ :: _, _ :: _, [], _, h => by simp [compareChars] at h
  | a :: x, b :: y, c :: z, hxy, hyz => by
    simp only [compareChars] at hxy hyz ⊢
    by_cases h1 : a.toNat < b.toNat
    · by_cases h2 : b.toNat < c.toNat
      · have h3 : a.toNat < c.toNat := by omega
        simp [h3]
      · by_cases h2' : c.toNat < b.toNat
        · simp [h2, h2'] at hyz
        · have h3 : a.toNat < c.toNat := by omega
          simp [h3]
    · by_cases h1' : b.toNat < a.toNat
      · simp [h1, h1'] at hxy
      · simp only [h1, h1', if_false] at hxy
        by_cases h2 : b.toNat < c.toNat
        · have h3 : a.toNat < c.toNat := by omega
          simp [h3]
        · by_cases h2' : c.toNat < b.toNat
          · simp [h2, h2'] at hyz
          · simp only [h2, h2', if_false] at hyz
            have h3 : ¬ a.toNat < c.toNat := by omega
            have h4 : ¬ c.toNat < a.toNat := by omega
            simp only [h3, h4, if_false]
            exact compareChars_trans x y z hxy hyz

/-- The collation of `refHost` is a consistent comparator. -/
theorem refHost_consistentCompare : ConsistentCompare refHost.localeCompare where
  refl := fun _ => compareChars_self _
  antisymm := fun _ _ => compareChars_swap _ _
  trans := fun _ _ _ => compareChars_trans _ _ _

/-- On `refHost`, `compareBuses` is `0` on equal arguments, swapping the arguments swaps
the sign, and "negative" is transitive. -/
theorem compareBuses_order_refHost (a b c : Bus) :
    compareBuses refHost a a = .fin 0 ∧
    (compareBuses refHost b a).sgn = -(compareBuses refHost a b).sgn ∧
    ((compareBuses refHost a b).lt (.fin 0) = true →
      (compareBuses refHost b c).lt (.fin 0) = true →
      (compareBuses refHost a c).lt (.fin 0) = true) :=
  ⟨(compareBuses_order refHost refHost_consistentCompare a b c).1,
    (compareBuses_order refHost refHost_consistentCompare a b c).2.1,
    (compareBuses_order refHost refHost_consistentCompare a b c).2.2.1⟩

/-- **C9, failing input.** The identifier `1`, line feed, `A` starts with the digit `1`, yet
the pattern does not match it (`.` stops at the line feed and `$` needs the end of the
string), so its numeric prefix is `+Infinity` instead of `1` and it compares positive
against `2`, whose leading-digit value is larger. -/
theorem compareBuses_line_break_after_digits :
    (("1\nA".toList.takeWhile Char.isDigit = ['1']) ∧ digitsValue ['1'] < digitsValue ['2']) ∧
    matchRoute (jsTrim "1\nA") = none ∧
    parseRouteKey refHost (some "1\nA") = { num := .posInf, suf := "1\nA" } ∧
    parseRouteKey refHost (some "2") = { num := .fin 2, suf := "" } ∧
    compareBuses refHost ⟨some "1\nA", some "none"⟩ ⟨some "2", some "none"⟩ = .posInf := by
  decide

/-- **C10, failing input.** The suffix U+00C4 and the suffix U+0041 U+0308 are different
strings that `localeCompare` reports as equal. With route `1` followed by one or the other,
`a` and `b` compare as `0` and `b` and `c` compare as `0`, whatever their headsigns, but `a`
and `c` have the same suffix and are ordered by their headsigns: `compare(a, c) < 0`. -/
theorem compareBuses_zero_not_transitive :
    compareBuses refHost ⟨some "1\u00C4", some "x"⟩ ⟨some "1A\u0308", some "y"⟩ = .fin 0 ∧
    compareBuses refHost ⟨some "1A\u0308", some "y"⟩ ⟨some "1\u00C4", some "z"⟩ = .fin 0 ∧
    compareBuses refHost ⟨some "1\u00C4", some "x"⟩ ⟨some "1\u00C4", some "z"⟩ = .fin (-1) ∧
    (parseRouteKey refHost (some "1\u00C4")).suf ≠ (parseRouteKey refHost (some "1A\u0308")).suf ∧
    refHost.localeCompare (parseRouteKey refHost (some "1\u00C4")).suf
      (parseRouteKey refHost (some "1A\u0308")).suf = 0 := by
  decide

/-! ### Absent headsigns -/

/-- Two rows with the same route identifier are ordered by their headsigns, an absent one
read as the empty string. -/
theorem compareBuses_of_same_route (H : Host) (a b : Bus)
    (hr : a.route_short_name = b.route_short_name) :
    compareBuses H a b =
      .fin (H.localeCompare (orEmpty a.trip_headsign) (orEmpty b.trip_headsign)) := by
  unfold compareBuses
  rw [hr]
  rcases parseRouteKey_num H b.route_short_name with h | ⟨n, h⟩ <;>
    simp [h, JSNum.strictNe, JSNum.isNaN]

/-- **C11.** A trip whose headsign is absent (`NULL`) or blank reaches `compareBuses` as a
`/buses` row with the headsign `none`, so it is compared exactly as the same route with the
headsign `none`: the two comparisons against any `/buses` row are equal, hence of the same
sign, and against a row with the same route identifier the result is
`"none".localeCompare` of the other headsign, the token sorting by its own value. -/
theorem buses_absent_headsign_sorts_as_none (H : Host) (route headsign : Option String)
    (routeB headsignB : Option String)
    (habs : headsign = none ∨ ∃ s, headsign = some s ∧ sqlTrim s = "") :
    busesRow route headsign = { route_short_name := route, trip_headsign := some "none" } ∧
    compareBuses H (busesRow route headsign) (busesRow routeB headsignB) =
      compareBuses H (busesRow route (some "none")) (busesRow routeB headsignB) ∧
    (compareBuses H (busesRow route headsign) (busesRow routeB headsignB)).sgn =
      (compareBuses H (busesRow route (some "none")) (busesRow routeB headsignB)).sgn ∧
    (routeB = route →
      compareBuses H (busesRow route headsign) (busesRow routeB headsignB) =
        .fin (H.localeCompare "none" (busesHeadsign headsignB))) := by
  have hnone : busesHeadsign headsign = "none" := by
    rcases habs with h | ⟨s, h, hs⟩
    · rw [h]
      rfl
    · rw [h]
      simp only [busesHeadsign, hs, if_true]
  have hlit : busesHeadsign (some "none") = "none" := by decide
  have hrow : busesRow route headsign = busesRow route (some "none") := by
    unfold busesRow
    rw [hnone, hlit]
  refine ⟨?_, ?_, ?_, ?_⟩
  · unfold busesRow
    rw [hnone]
  · rw [hrow]
  · rw [hrow]
  · intro hr
    rw [compareBuses_of_same_route H _ _ (by rw [hr]; rfl)]
    unfold busesRow
    rw [hnone]
    rfl

/-- The statement of `buses_absent_headsign_sorts_as_none` for route `5` with a blank
headsign against route `5` towards `Kesklinn`. -/
theorem buses_absent_headsign_sorts_as_none_witness :
    ((some "  " : Option String) = none ∨ ∃ s, some "  " = some s ∧ sqlTrim s = "") ∧
    busesRow (some "5") (some "  ") =
      { route_short_name := some "5", trip_headsign := some "none" } ∧
    compareBuses refHost (busesRow (some "5") (some "  "))
        (busesRow (some "5") (some "Kesklinn")) =
      .fin (refHost.localeCompare "none" (busesHeadsign (some "Kesklinn"))) :=
  ⟨Or.inr ⟨"  ", rfl, by decide⟩,
    (buses_absent_headsign_sorts_as_none refHost (some "5") (some "  ") (some "5")
      (some "Kesklinn") (Or.inr ⟨"  ", rfl, by decide⟩)).1,
    (buses_absent_headsign_sorts_as_none refHost (some "5") (some "  ") (some "5")
      (some "Kesklinn") (Or.inr ⟨"  ", rfl, by decide⟩)).2.2.2 rfl⟩

end BusStops
